import Mathlib

/-!
Shallow embedding of `src/visor/readable.go` from the skycoin repository.

The file embeds the readable ledger view layer: conversion of unspent
outputs, transaction inputs/outputs and transactions to their readable
(string-oriented) form, the three-way unspent-output set reconciliation
(spendable / expected outputs), balance aggregation with checked 64-bit
addition, and the reverse conversion back to native unspent outputs.

External collaborators of the package (the droplet amount codec, base58
address codec, hex hash codec, content-hash functions and the coin-hours
accrual function from the `cipher`, `coin`, `droplet` and `wallet`
packages) are not part of the verified source file; they are represented
by an explicit environment `Env` of opaque, fallible conversion
functions, exactly as the specification describes them (opaque fallible
bidirectional conversions).  Machine integers (`uint64`) are embedded as
`Nat` with explicit `2^64` overflow checks where the code checks
overflow.  Go's `error` results become `Except GoError`; a Go panic
becomes `Option.none`.
-/

/-- Go `error` values relevant to this package.  The distinguished
`coin.ErrAddEarnedCoinHoursAdditionOverflow` is compared against by
identity in `NewReadableOutput`'s switch, so it gets its own
constructor; every other error is carried as a message string. -/
inductive GoError where
  | addEarnedCoinHoursAdditionOverflow
  | other (msg : String)
deriving DecidableEq

/-- Embeds `coin.UxHead`: creation metadata of an unspent output. -/
structure UxHead where
  Time : Nat
  BkSeq : Nat
deriving DecidableEq

/-- Embeds `coin.UxBody`: the body of an unspent output.  Hashes and
addresses are abstract values embedded as `Nat`. -/
structure UxBody where
  SrcTransaction : Nat
  Address : Nat
  Coins : Nat
  Hours : Nat
deriving DecidableEq

/-- Embeds `coin.UxOut`: one unspent output. -/
structure UxOut where
  Head : UxHead
  Body : UxBody
deriving DecidableEq

/-- Embeds `coin.TransactionOutput`. -/
structure TransactionOutput where
  Address : Nat
  Coins : Nat
  Hours : Nat
deriving DecidableEq

/-- Embeds `coin.Transaction` (the fields `readable.go` reads). -/
structure CoinTransaction where
  Length : Nat
  «Type» : Nat
  InnerHash : Nat
  Sigs : List Nat
  In : List Nat
  Out : List TransactionOutput
deriving DecidableEq

/-- Embeds `visor.TransactionStatus`. -/
structure TransactionStatus where
  Confirmed : Bool
  Unconfirmed : Bool
  Height : Nat
  BlockSeq : Nat
deriving DecidableEq

/-- Embeds `visor.Transaction`: a coin transaction tagged with its
status and a timestamp. -/
structure Transaction where
  Txn : CoinTransaction
  Status : TransactionStatus
  Time : Nat
deriving DecidableEq

/-- The external collaborators of `readable.go`: the droplet amount
codec, base58 address codec, hex hash codec, signature hex encoding,
the coin-hours accrual function and the content-hash functions.  They
live in other packages (`droplet`, `cipher`, `coin`) and are treated as
opaque fallible conversions, as the specification states. -/
structure Env where
  dropletToString : Nat → Except GoError String
  dropletFromString : String → Except GoError Nat
  addrString : Nat → String
  decodeBase58Address : String → Except GoError Nat
  sha256Hex : Nat → String
  sha256FromHex : String → Except GoError Nat
  sigHex : Nat → String
  coinHours : UxOut → Nat → Except GoError Nat
  uxHash : UxOut → Nat
  txnHash : CoinTransaction → Nat
  uxID : TransactionOutput → Nat → Nat

/-- Embeds `visor.ReadableTransactionOutput`. -/
structure ReadableTransactionOutput where
  Hash : String
  Address : String
  Coins : String
  Hours : Nat
deriving DecidableEq

/-- Embeds `visor.ReadableTransactionInput`. -/
structure ReadableTransactionInput where
  Hash : String
  Address : String
  Coins : String
  Hours : Nat
  CalculatedHours : Nat
deriving DecidableEq

/-- Embeds `visor.ReadableOutput`. -/
structure ReadableOutput where
  Hash : String
  Time : Nat
  BkSeq : Nat
  SourceTransaction : String
  Address : String
  Coins : String
  Hours : Nat
  CalculatedHours : Nat
deriving DecidableEq

/-- Embeds `visor.ReadableOutputs` (a slice of `ReadableOutput`). -/
abbrev ReadableOutputs := List ReadableOutput

/-- Embeds `visor.ReadableOutputSet`: unspent outputs in three states. -/
structure ReadableOutputSet where
  HeadOutputs : ReadableOutputs
  OutgoingOutputs : ReadableOutputs
  IncomingOutputs : ReadableOutputs
deriving DecidableEq

/-- Embeds `visor.ReadableTransaction`. -/
structure ReadableTransaction where
  Timestamp : Nat
  Length : Nat
  «Type» : Nat
  Hash : String
  InnerHash : String
  Sigs : List String
  In : List String
  Out : List ReadableTransactionOutput
deriving DecidableEq

/-- Embeds `wallet.Balance` (coins and hours totals). -/
structure Wallet.Balance where
  Coins : Nat
  Hours : Nat
deriving DecidableEq

/-- The shape shared by every conversion loop in `readable.go`: convert
elements in order and short-circuit with the first error, returning no
partial result. -/
def mapErr (f : α → Except GoError β) : List α → Except GoError (List β)
  | [] => .ok []
  | a :: as =>
    match f a with
    | .error e => .error e
    | .ok b =>
      match mapErr f as with
      | .error e => .error e
      | .ok bs => .ok (b :: bs)

/-- Modelled from the spec: `coin.AddUint64` is not under `src/`; per
the specification, summation "must detect and fail on 64-bit addition
overflow rather than wrapping". -/
def AddUint64 (a b : Nat) : Except GoError Nat :=
  if a + b < 2 ^ 64 then .ok (a + b) else .error (.other "uint64 addition overflow")

/-- Modelled from the spec: `coin.Transaction.TxIDHex` is not under
`src/`; per the specification's collaborator contract it is the
content-hash function over the transaction's raw bytes, hex encoded
(it is a method of the bare coin transaction and has no access to any
confirmation status). -/
def TxIDHex (env : Env) (t : CoinTransaction) : String :=
  env.sha256Hex (env.txnHash t)

/-- Embeds `NewConfirmedTransactionStatus`.  The Go function panics
(`logger.Panic`) when `height == 0`; the panic is embedded as `none`,
a returned error value would instead be an `Except.error`. -/
def NewConfirmedTransactionStatus (height blockSeq : Nat) : Option TransactionStatus :=
  if height = 0 then
    none
  else
    some { Confirmed := true, Unconfirmed := false, Height := height, BlockSeq := blockSeq }

/-- Embeds `NewReadableTransactionOutput`. -/
def NewReadableTransactionOutput (env : Env) (t : TransactionOutput) (txid : Nat) :
    Except GoError ReadableTransactionOutput :=
  match env.dropletToString t.Coins with
  | .error e => .error e
  | .ok coinStr =>
    .ok { Hash := env.sha256Hex (env.uxID t txid)
          Address := env.addrString t.Address
          Coins := coinStr
          Hours := t.Hours }

/-- Embeds `NewReadableTransactionInput`: a failed coin-hours accrual
(any failure) is replaced by calculated hours 0 and the conversion
continues; only a coins-encoding failure is an error. -/
def NewReadableTransactionInput (env : Env) (ux : UxOut) (calculateHoursTime : Nat) :
    Except GoError ReadableTransactionInput :=
  match env.dropletToString ux.Body.Coins with
  | .error e => .error e
  | .ok coinVal =>
    let calculatedHours :=
      match env.coinHours ux calculateHoursTime with
      | .ok h => h
      | .error _ => 0
    .ok { Hash := env.sha256Hex (env.uxHash ux)
          Address := env.addrString ux.Body.Address
          Coins := coinVal
          Hours := ux.Body.Hours
          CalculatedHours := calculatedHours }

/-- Embeds `NewReadableOutput`: the coins encoding failure propagates;
the coin-hours accrual failure is tolerated only when it is exactly
`coin.ErrAddEarnedCoinHoursAdditionOverflow` (calculated hours forced
to 0), every other accrual failure propagates. -/
def NewReadableOutput (env : Env) (headTime : Nat) (t : UxOut) :
    Except GoError ReadableOutput :=
  match env.dropletToString t.Body.Coins with
  | .error e => .error e
  | .ok coinStr =>
    match env.coinHours t headTime with
    | .ok calculatedHours =>
      .ok { Hash := env.sha256Hex (env.uxHash t)
            Time := t.Head.Time
            BkSeq := t.Head.BkSeq
            SourceTransaction := env.sha256Hex t.Body.SrcTransaction
            Address := env.addrString t.Body.Address
            Coins := coinStr
            Hours := t.Body.Hours
            CalculatedHours := calculatedHours }
    | .error .addEarnedCoinHoursAdditionOverflow =>
      .ok { Hash := env.sha256Hex (env.uxHash t)
            Time := t.Head.Time
            BkSeq := t.Head.BkSeq
            SourceTransaction := env.sha256Hex t.Body.SrcTransaction
            Address := env.addrString t.Body.Address
            Coins := coinStr
            Hours := t.Body.Hours
            CalculatedHours := 0 }
    | .error e => .error e

/-- Lexicographic strict comparison of char lists by scalar value,
the model of Go's byte-wise `strings.Compare(x, y) < 0` (the compared
strings here are hex digests, ASCII, where byte order and char order
coincide). -/
def charsLt : List Char → List Char → Bool
  | [], [] => false
  | [], _ :: _ => true
  | _ :: _, [] => false
  | a :: as, b :: bs =>
    if a.toNat < b.toNat then true
    else if b.toNat < a.toNat then false
    else charsLt as bs

/-- `strings.Compare(a, b) < 0` on strings. -/
def strLt (a b : String) : Bool :=
  charsLt a.data b.data

/-- `strings.Compare(a, b) <= 0` on strings: the non-strict companion
of `strLt`. -/
def strLe (a b : String) : Bool :=
  !strLt b a

/-- The comparator passed to `sort.Slice` inside `NewReadableOutputs`:
newest creation time first, ties broken by ascending hex hash. -/
def outLess (a b : ReadableOutput) : Bool :=
  if a.Time = b.Time then
    strLt a.Hash b.Hash
  else
    decide (b.Time < a.Time)

/-- The non-strict order induced by `outLess`: `a` may come before `b`
exactly when `b` must not come before `a`. -/
def outLE (a b : ReadableOutput) : Bool :=
  !outLess b a

/-- Insert an element into a list so that it precedes the first element
it is `le`-below; helper of `sortLe`. -/
def insertLe (le : α → α → Bool) (a : α) : List α → List α
  | [] => [a]
  | b :: bs => if le a b then a :: b :: bs else b :: insertLe le a bs

/-- Sorting model of Go's `sort.Slice`: produces a permutation of the
input that is sorted with respect to the comparator (insertion sort,
chosen so that it is structurally recursive and computable). -/
def sortLe (le : α → α → Bool) : List α → List α
  | [] => []
  | a :: as => insertLe le a (sortLe le as)

/-- Embeds `NewReadableOutputs`: convert every unspent output (first
error aborts the batch), then sort newest-first with ascending-hash
tie-break. -/
def NewReadableOutputs (env : Env) (headTime : Nat) (uxs : List UxOut) :
    Except GoError ReadableOutputs :=
  match mapErr (NewReadableOutput env headTime) uxs with
  | .error e => .error e
  | .ok rxReadables => .ok (sortLe outLE rxReadables)

/-- The loop of `ReadableOutputs.Balance`, with the accumulator made
explicit: decode each coins string, then add coins and calculated
hours with overflow-checked 64-bit addition. -/
def balanceLoop (env : Env) (bal : Wallet.Balance) : ReadableOutputs → Except GoError Wallet.Balance
  | [] => .ok bal
  | out :: rest =>
    match env.dropletFromString out.Coins with
    | .error e => .error e
    | .ok coins =>
      match AddUint64 bal.Coins coins with
      | .error e => .error e
      | .ok c =>
        match AddUint64 bal.Hours out.CalculatedHours with
        | .error e => .error e
        | .ok h => balanceLoop env { Coins := c, Hours := h } rest

/-- Embeds `ReadableOutputs.Balance`. -/
def ReadableOutputs.Balance (ros : ReadableOutputs) (env : Env) : Except GoError Wallet.Balance :=
  balanceLoop env { Coins := 0, Hours := 0 } ros

/-- Embeds `ReadableOutputs.ToUxArray`: decode coins, address and
source-transaction hash of every output; first failure aborts. -/
def ReadableOutputs.ToUxArray (ros : ReadableOutputs) (env : Env) : Except GoError (List UxOut) :=
  mapErr (fun o =>
    match env.dropletFromString o.Coins with
    | .error e => .error e
    | .ok coins =>
      match env.decodeBase58Address o.Address with
      | .error e => .error e
      | .ok addr =>
        match env.sha256FromHex o.SourceTransaction with
        | .error e => .error e
        | .ok srcTx =>
          .ok { Head := { Time := o.Time, BkSeq := o.BkSeq }
                Body := { SrcTransaction := srcTx
                          Address := addr
                          Coins := coins
                          Hours := o.Hours } }) ros

/-- Embeds `ReadableOutputSet.SpendableOutputs`: if there are no
outgoing outputs, the head outputs themselves; otherwise the head
outputs whose hash is not among the outgoing hashes, in order. -/
def ReadableOutputSet.SpendableOutputs (os : ReadableOutputSet) : ReadableOutputs :=
  if os.OutgoingOutputs.length = 0 then
    os.HeadOutputs
  else
    let spending := os.OutgoingOutputs.map (fun u => u.Hash)
    os.HeadOutputs.filter (fun o => !(spending.contains o.Hash))

/-- Embeds `ReadableOutputSet.ExpectedOutputs`: spendable outputs with
the incoming outputs appended. -/
def ReadableOutputSet.ExpectedOutputs (os : ReadableOutputSet) : ReadableOutputs :=
  os.SpendableOutputs ++ os.IncomingOutputs

/-- Embeds `NewReadableTransaction`: rejects a confirmed transaction
with non-zero block sequence and empty input list; derives the txid
used for output identifiers (all-zero for the confirmed genesis
transaction, the real content hash otherwise); converts signatures,
inputs and outputs; the reported `Hash` field is `t.Txn.TxIDHex()`. -/
def NewReadableTransaction (env : Env) (t : Transaction) : Except GoError ReadableTransaction :=
  if t.Status.BlockSeq ≠ 0 ∧ t.Status.Confirmed = true ∧ t.Txn.In = [] then
    .error (.other "NewReadableTransaction: Confirmed transaction Status.BlockSeq != 0 but Txn.In is empty")
  else
    let txid : Nat :=
      if t.Status.BlockSeq ≠ 0 ∨ t.Status.Confirmed = false then env.txnHash t.Txn else 0
    let sigs := t.Txn.Sigs.map env.sigHex
    let ins := t.Txn.In.map env.sha256Hex
    match mapErr (fun o => NewReadableTransactionOutput env o txid) t.Txn.Out with
    | .error e => .error e
    | .ok out =>
      .ok { Timestamp := t.Time
            Length := t.Txn.Length
            «Type» := t.Txn.«Type»
            Hash := TxIDHex env t.Txn
            InnerHash := env.sha256Hex t.Txn.InnerHash
            Sigs := sigs
            In := ins
            Out := out }

/-! Concrete environments and inputs used by the witness and
counterexample theorems below.  Each environment is one admissible
instantiation of the opaque collaborators. -/

/-- A concrete environment whose hex encodings are decimal reprs and
whose content hashes are simple functions of the entity. -/
def envC2 : Env where
  dropletToString := fun n => .ok (Nat.repr n)
  dropletFromString := fun _ => .error (.other "unused")
  addrString := fun n => Nat.repr n
  decodeBase58Address := fun _ => .error (.other "unused")
  sha256Hex := fun n => Nat.repr n
  sha256FromHex := fun _ => .error (.other "unused")
  sigHex := fun n => Nat.repr n
  coinHours := fun _ _ => .ok 0
  uxHash := fun u => u.Body.Coins
  txnHash := fun _ => 7
  uxID := fun o txid => o.Coins + 1000 * txid

/-- A coin transaction with content hash 7 under `envC2`. -/
def txnC2 : CoinTransaction where
  Length := 1
  «Type» := 0
  InnerHash := 2
  Sigs := []
  In := []
  Out := []

/-- `txnC2` confirmed in the genesis block (block sequence 0). -/
def tC2 : Transaction where
  Txn := txnC2
  Status := { Confirmed := true, Unconfirmed := false, Height := 1, BlockSeq := 0 }
  Time := 9

/-- The readable form of `tC2` under `envC2`. -/
def rtC2 : ReadableTransaction where
  Timestamp := 9
  Length := 1
  «Type» := 0
  Hash := "7"
  InnerHash := "2"
  Sigs := []
  In := []
  Out := []

/-- `txnC2` with block sequence 0 but unconfirmed status. -/
def tC2u : Transaction where
  Txn := txnC2
  Status := { Confirmed := false, Unconfirmed := true, Height := 0, BlockSeq := 0 }
  Time := 9

/-- A confirmed transaction with non-zero block sequence and an empty
input list. -/
def tC9 : Transaction where
  Txn := txnC2
  Status := { Confirmed := true, Unconfirmed := false, Height := 1, BlockSeq := 2 }
  Time := 0

/-- Environment for the sorting witness: hashes of unspent outputs are
their coin amounts. -/
def envC3 : Env where
  dropletToString := fun n => .ok (Nat.repr n)
  dropletFromString := fun _ => .error (.other "unused")
  addrString := fun n => Nat.repr n
  decodeBase58Address := fun _ => .error (.other "unused")
  sha256Hex := fun n => Nat.repr n
  sha256FromHex := fun _ => .error (.other "unused")
  sigHex := fun n => Nat.repr n
  coinHours := fun _ _ => .ok 1
  uxHash := fun u => u.Body.Coins
  txnHash := fun _ => 0
  uxID := fun o _ => o.Coins

/-- An unspent output with coins 3 (hash "3" under `envC3`). -/
def uxA : UxOut where
  Head := { Time := 10, BkSeq := 0 }
  Body := { SrcTransaction := 0, Address := 0, Coins := 3, Hours := 0 }

/-- An unspent output with coins 4 (hash "4" under `envC3`), same
creation time as `uxA`. -/
def uxB : UxOut where
  Head := { Time := 10, BkSeq := 0 }
  Body := { SrcTransaction := 0, Address := 0, Coins := 4, Hours := 0 }

/-- The readable form of `uxA` under `envC3`. -/
def roA : ReadableOutput where
  Hash := "3"
  Time := 10
  BkSeq := 0
  SourceTransaction := "0"
  Address := "0"
  Coins := "3"
  Hours := 0
  CalculatedHours := 1

/-- The readable form of `uxB` under `envC3`. -/
def roB : ReadableOutput where
  Hash := "4"
  Time := 10
  BkSeq := 0
  SourceTransaction := "0"
  Address := "0"
  Coins := "4"
  Hours := 0
  CalculatedHours := 1

/-- An output set with no outgoing outputs. -/
def osW1 : ReadableOutputSet where
  HeadOutputs := [roA, roB]
  OutgoingOutputs := []
  IncomingOutputs := [roB]

/-- Environment for the round-trip witness: its codecs invert each
other on the values of the concrete output `uxC4`. -/
def envC4 : Env where
  dropletToString := fun n => .ok (Nat.repr n)
  dropletFromString := fun s => if s = "5" then .ok 5 else .error (.other "bad coins")
  addrString := fun n => "a" ++ Nat.repr n
  decodeBase58Address := fun s => if s = "a9" then .ok 9 else .error (.other "bad address")
  sha256Hex := fun n => "h" ++ Nat.repr n
  sha256FromHex := fun s => if s = "h3" then .ok 3 else .error (.other "bad hash")
  sigHex := fun n => Nat.repr n
  coinHours := fun _ _ => .ok 11
  uxHash := fun _ => 42
  txnHash := fun _ => 0
  uxID := fun _ _ => 0

/-- The concrete unspent output for the round-trip witness. -/
def uxC4 : UxOut where
  Head := { Time := 100, BkSeq := 2 }
  Body := { SrcTransaction := 3, Address := 9, Coins := 5, Hours := 7 }

/-- The readable form of `uxC4` under `envC4`. -/
def roC4 : ReadableOutput where
  Hash := "h42"
  Time := 100
  BkSeq := 2
  SourceTransaction := "h3"
  Address := "a9"
  Coins := "5"
  Hours := 7
  CalculatedHours := 11

/-- Environment for the balance witness: a coins string decodes to its
length. -/
def envC5 : Env where
  dropletToString := fun n => .ok (Nat.repr n)
  dropletFromString := fun s => .ok s.length
  addrString := fun n => Nat.repr n
  decodeBase58Address := fun _ => .error (.other "unused")
  sha256Hex := fun n => Nat.repr n
  sha256FromHex := fun _ => .error (.other "unused")
  sigHex := fun n => Nat.repr n
  coinHours := fun _ _ => .ok 0
  uxHash := fun u => u.Body.Coins
  txnHash := fun _ => 0
  uxID := fun o _ => o.Coins

/-- Two readable outputs whose coins decode to 1 and 2 under `envC5`
and whose calculated hours are 2 and 3. -/
def rosW5a : ReadableOutputs :=
  [{ Hash := "x", Time := 0, BkSeq := 0, SourceTransaction := "", Address := "",
     Coins := "a", Hours := 0, CalculatedHours := 2 },
   { Hash := "y", Time := 0, BkSeq := 0, SourceTransaction := "", Address := "",
     Coins := "bb", Hours := 0, CalculatedHours := 3 }]

/-- A readable output whose calculated hours alone overflow a 64-bit
sum. -/
def rosW5b : ReadableOutputs :=
  [{ Hash := "z", Time := 0, BkSeq := 0, SourceTransaction := "", Address := "",
     Coins := "a", Hours := 0, CalculatedHours := 2 ^ 64 }]

/-- The unspent output shared by the error-policy witnesses. -/
def uxC6 : UxOut where
  Head := { Time := 5, BkSeq := 1 }
  Body := { SrcTransaction := 2, Address := 3, Coins := 4, Hours := 6 }

/-- Environment whose coin-hours accrual fails with the known
earned-coin-hours addition overflow. -/
def envC6a : Env where
  dropletToString := fun n => .ok (Nat.repr n)
  dropletFromString := fun _ => .error (.other "unused")
  addrString := fun n => Nat.repr n
  decodeBase58Address := fun _ => .error (.other "unused")
  sha256Hex := fun n => Nat.repr n
  sha256FromHex := fun _ => .error (.other "unused")
  sigHex := fun n => Nat.repr n
  coinHours := fun _ _ => .error .addEarnedCoinHoursAdditionOverflow
  uxHash := fun u => u.Body.Coins
  txnHash := fun _ => 0
  uxID := fun o _ => o.Coins

/-- Environment whose coin-hours accrual fails with an unrelated
error. -/
def envC6b : Env where
  dropletToString := fun n => .ok (Nat.repr n)
  dropletFromString := fun _ => .error (.other "unused")
  addrString := fun n => Nat.repr n
  decodeBase58Address := fun _ => .error (.other "unused")
  sha256Hex := fun n => Nat.repr n
  sha256FromHex := fun _ => .error (.other "unused")
  sigHex := fun n => Nat.repr n
  coinHours := fun _ _ => .error (.other "boom")
  uxHash := fun u => u.Body.Coins
  txnHash := fun _ => 0
  uxID := fun o _ => o.Coins

/-- Environment whose coin-amount encoding fails. -/
def envC6c : Env where
  dropletToString := fun _ => .error (.other "badcoins")
  dropletFromString := fun _ => .error (.other "unused")
  addrString := fun n => Nat.repr n
  decodeBase58Address := fun _ => .error (.other "unused")
  sha256Hex := fun n => Nat.repr n
  sha256FromHex := fun _ => .error (.other "unused")
  sigHex := fun n => Nat.repr n
  coinHours := fun _ _ => .ok 9
  uxHash := fun u => u.Body.Coins
  txnHash := fun _ => 0
  uxID := fun o _ => o.Coins

/-! Helper lemmas about the sorting model and the comparator. -/

/-- Inserting is a permutation of consing. -/
theorem insertLe_perm (le : α → α → Bool) (a : α) (l : List α) :
    (insertLe le a l).Perm (a :: l) := by
  induction l with
  | nil => exact List.Perm.refl _
  | cons b bs ih =>
    simp only [insertLe]
    by_cases h : le a b = true
    · rw [if_pos h]
    · rw [if_neg h]
      exact (ih.cons b).trans (List.Perm.swap a b bs)

/-- Membership in an insertion. -/
theorem mem_insertLe {le : α → α → Bool} {a x : α} {l : List α} :
    x ∈ insertLe le a l ↔ x = a ∨ x ∈ l := by
  rw [(insertLe_perm le a l).mem_iff, List.mem_cons]

/-- The sorting model permutes its input. -/
theorem sortLe_perm (le : α → α → Bool) (l : List α) : (sortLe le l).Perm l := by
  induction l with
  | nil => exact List.Perm.refl _
  | cons a as ih => exact (insertLe_perm le a (sortLe le as)).trans (ih.cons a)

/-- Inserting into a `le`-sorted list keeps it sorted, provided `le` is
total and transitive. -/
theorem pairwise_insertLe {le : α → α → Bool}
    (htot : ∀ x y, le x y = true ∨ le y x = true)
    (htrans : ∀ x y z, le x y = true → le y z = true → le x z = true)
    {a : α} {l : List α} (h : l.Pairwise (fun x y => le x y = true)) :
    (insertLe le a l).Pairwise (fun x y => le x y = true) := by
  induction l with
  | nil => simp [insertLe]
  | cons b bs ih =>
    rw [List.pairwise_cons] at h
    obtain ⟨hb, hbs⟩ := h
    simp only [insertLe]
    by_cases hab : le a b = true
    · rw [if_pos hab, List.pairwise_cons]
      refine ⟨?_, List.pairwise_cons.mpr ⟨hb, hbs⟩⟩
      intro x hx
      rcases List.mem_cons.mp hx with rfl | hxbs
      · exact hab
      · exact htrans a b x hab (hb x hxbs)
    · have hba : le b a = true := (htot a b).resolve_left hab
      rw [if_neg hab, List.pairwise_cons]
      refine ⟨?_, ih hbs⟩
      intro x hx
      rcases mem_insertLe.mp hx with rfl | hxbs
      · exact hba
      · exact hb x hxbs

/-- The sorting model produces a `le`-sorted list, provided `le` is
total and transitive. -/
theorem pairwise_sortLe {le : α → α → Bool}
    (htot : ∀ x y, le x y = true ∨ le y x = true)
    (htrans : ∀ x y z, le x y = true → le y z = true → le x z = true)
    (l : List α) : (sortLe le l).Pairwise (fun x y => le x y = true) := by
  induction l with
  | nil => simp [sortLe]
  | cons a as ih => exact pairwise_insertLe htot htrans ih

/-- Sorting a `le`-sorted list returns it unchanged. -/
theorem sortLe_of_pairwise {le : α → α → Bool} {l : List α}
    (h : l.Pairwise (fun x y => le x y = true)) : sortLe le l = l := by
  induction l with
  | nil => rfl
  | cons a as ih =>
    rw [List.pairwise_cons] at h
    obtain ⟨ha, has⟩ := h
    simp only [sortLe, ih has]
    cases as with
    | nil => rfl
    | cons b bs =>
      simp only [insertLe]
      rw [if_pos (ha b (List.mem_cons_self b bs))]

/-- Strict byte-wise comparison is asymmetric. -/
theorem charsLt_asymm : ∀ (as bs : List Char), charsLt as bs = true → charsLt bs as = false
  | [], [] => by simp [charsLt]
  | [], _ :: _ => by simp [charsLt]
  | _ :: _, [] => by simp [charsLt]
  | a :: as, b :: bs => by
    simp only [charsLt]
    by_cases h1 : a.toNat < b.toNat
    · intro _
      rw [if_neg (by omega), if_pos h1]
    · rw [if_neg h1]
      by_cases h2 : b.toNat < a.toNat
      · rw [if_pos h2]
        intro h
        exact absurd h (by simp)
      · rw [if_neg h2, if_neg h2, if_neg h1]
        exact charsLt_asymm as bs

/-- Strict byte-wise comparison relates any two distinct lists. -/
theorem charsLt_total_ne : ∀ (as bs : List Char), as ≠ bs →
    charsLt as bs = true ∨ charsLt bs as = true
  | [], [], h => absurd rfl h
  | [], _ :: _, _ => Or.inl (by simp [charsLt])
  | _ :: _, [], _ => Or.inr (by simp [charsLt])
  | a :: as, b :: bs, h => by
    by_cases h1 : a.toNat < b.toNat
    · exact Or.inl (by simp only [charsLt]; rw [if_pos h1])
    · by_cases h2 : b.toNat < a.toNat
      · exact Or.inr (by simp only [charsLt]; rw [if_pos h2])
      · have hab : a = b :=
          Char.eq_of_val_eq (UInt32.ext (show a.toNat = b.toNat by omega))
        subst hab
        have hne : as ≠ bs := fun hh => h (by rw [hh])
        rcases charsLt_total_ne as bs hne with hlt | hlt
        · exact Or.inl (by simp only [charsLt]; rw [if_neg h1, if_neg h2]; exact hlt)
        · exact Or.inr (by simp only [charsLt]; rw [if_neg h2, if_neg h1]; exact hlt)

/-- The negation of strict byte-wise comparison is transitive. -/
theorem charsLt_negtrans : ∀ (as bs cs : List Char),
    charsLt as bs = false → charsLt bs cs = false → charsLt as cs = false
  | [], bs, cs => by
    cases bs with
    | nil =>
      intro _ h2
      exact h2
    | cons b bs =>
      intro h1 _
      exact absurd h1 (by simp [charsLt])
  | _ :: _, bs, [] => by
    intro _ _
    simp [charsLt]
  | a :: as, bs, c :: cs => by
    cases bs with
    | nil =>
      intro _ h2
      exact absurd h2 (by simp [charsLt])
    | cons b bs =>
      intro h1 h2
      simp only [charsLt] at h1 h2 ⊢
      by_cases hab : a.toNat < b.toNat
      · rw [if_pos hab] at h1
        exact absurd h1 (by simp)
      · rw [if_neg hab] at h1
        by_cases hbc : b.toNat < c.toNat
        · rw [if_pos hbc] at h2
          exact absurd h2 (by simp)
        · rw [if_neg hbc] at h2
          rw [if_neg (by omega : ¬a.toNat < c.toNat)]
          by_cases hca : c.toNat < a.toNat
          · rw [if_pos hca]
          · rw [if_neg hca]
            have h1x : charsLt as bs = false := by
              rw [if_neg (by omega : ¬b.toNat < a.toNat)] at h1
              exact h1
            have h2x : charsLt bs cs = false := by
              rw [if_neg (by omega : ¬c.toNat < b.toNat)] at h2
              exact h2
            exact charsLt_negtrans as bs cs h1x h2x

/-- The non-strict string comparison is total. -/
theorem strLe_total (a b : String) : strLe a b = true ∨ strLe b a = true := by
  cases hb : charsLt a.data b.data
  · exact Or.inr (by simp [strLe, strLt, hb])
  · exact Or.inl (by simp [strLe, strLt, charsLt_asymm _ _ hb])

/-- The non-strict string comparison is transitive. -/
theorem strLe_trans (a b c : String) :
    strLe a b = true → strLe b c = true → strLe a c = true := by
  simp only [strLe, strLt, Bool.not_eq_true']
  intro h1 h2
  exact charsLt_negtrans c.data b.data a.data h2 h1

/-- Any two distinct strings are strictly related. -/
theorem strLt_total_ne (a b : String) (h : a ≠ b) :
    strLt a b = true ∨ strLt b a = true :=
  charsLt_total_ne a.data b.data fun hh => h (String.ext hh)

/-- Characterization of the non-strict comparator: `a` may precede `b`
iff `a` is newer, or equally old with a hash no larger. -/
theorem outLE_iff (a b : ReadableOutput) :
    outLE a b = true ↔
      b.Time < a.Time ∨ (b.Time = a.Time ∧ strLe a.Hash b.Hash = true) := by
  simp only [outLE, outLess]
  by_cases h : b.Time = a.Time
  · rw [if_pos h]
    simp [h, strLe]
  · rw [if_neg h]
    simp only [Bool.not_eq_true', decide_eq_false_iff_not, not_lt]
    constructor
    · intro hle
      exact Or.inl (lt_of_le_of_ne hle h)
    · rintro (h1 | h2)
      · exact le_of_lt h1
      · exact absurd h2.1 h

/-- Characterization of the strict comparator passed to `sort.Slice`. -/
theorem outLess_iff (a b : ReadableOutput) :
    outLess a b = true ↔
      (a.Time = b.Time ∧ strLt a.Hash b.Hash = true) ∨
      (¬a.Time = b.Time ∧ b.Time < a.Time) := by
  simp only [outLess]
  by_cases h : a.Time = b.Time
  · rw [if_pos h]
    simp [h]
  · rw [if_neg h]
    simp [h]

/-- The non-strict comparator is total. -/
theorem outLE_total (x y : ReadableOutput) : outLE x y = true ∨ outLE y x = true := by
  rw [outLE_iff, outLE_iff]
  rcases Nat.lt_trichotomy x.Time y.Time with h | h | h
  · exact Or.inr (Or.inl h)
  · rcases strLe_total x.Hash y.Hash with hh | hh
    · exact Or.inl (Or.inr ⟨h.symm, hh⟩)
    · exact Or.inr (Or.inr ⟨h, hh⟩)
  · exact Or.inl (Or.inl h)

/-- The non-strict comparator is transitive. -/
theorem outLE_trans (x y z : ReadableOutput) :
    outLE x y = true → outLE y z = true → outLE x z = true := by
  rw [outLE_iff, outLE_iff, outLE_iff]
  intro h1 h2
  rcases h1 with h1 | ⟨h1t, h1h⟩
  · rcases h2 with h2 | ⟨h2t, _⟩
    · exact Or.inl (h2.trans h1)
    · exact Or.inl (h2t ▸ h1)
  · rcases h2 with h2 | ⟨h2t, h2h⟩
    · exact Or.inl (h1t ▸ h2)
    · exact Or.inr ⟨by omega, strLe_trans _ _ _ h1h h2h⟩

/-- Checked addition succeeds below the 64-bit bound. -/
theorem AddUint64_lt {a b : Nat} (h : a + b < 2 ^ 64) : AddUint64 a b = .ok (a + b) := by
  unfold AddUint64
  rw [if_pos h]

/-- Checked addition fails at or above the 64-bit bound. -/
theorem AddUint64_ge {a b : Nat} (h : 2 ^ 64 ≤ a + b) :
    AddUint64 a b = .error (.other "uint64 addition overflow") := by
  unfold AddUint64
  rw [if_neg (not_lt.mpr h)]

/-- Invariant of the balance loop: starting from an in-range
accumulator, the loop returns the exact totals when they stay in
64-bit range and the overflow error as soon as a running sum would
leave it. -/
theorem balanceLoop_spec (env : Env) :
    ∀ (ros : ReadableOutputs) (cs : List Nat) (bc bh : Nat),
      bc < 2 ^ 64 → bh < 2 ^ 64 →
      mapErr (fun o => env.dropletFromString o.Coins) ros = .ok cs →
      ((bc + cs.sum < 2 ^ 64 ∧
          bh + (ros.map (fun o => o.CalculatedHours)).sum < 2 ^ 64 →
        balanceLoop env { Coins := bc, Hours := bh } ros =
          .ok { Coins := bc + cs.sum,
                Hours := bh + (ros.map (fun o => o.CalculatedHours)).sum }) ∧
       (2 ^ 64 ≤ bc + cs.sum ∨
          2 ^ 64 ≤ bh + (ros.map (fun o => o.CalculatedHours)).sum →
        balanceLoop env { Coins := bc, Hours := bh } ros =
          .error (.other "uint64 addition overflow"))) := by
  intro ros
  induction ros with
  | nil =>
    intro cs bc bh hbc hbh hm
    simp only [mapErr] at hm
    injection hm with h
    subst h
    constructor
    · intro _
      simp [balanceLoop]
    · intro hover
      simp only [List.map_nil, List.sum_nil, List.sum_nil, Nat.add_zero] at hover
      rcases hover with h | h
      · omega
      · omega
  | cons out rest ih =>
    intro cs bc bh hbc hbh hm
    simp only [mapErr] at hm
    cases hd : env.dropletFromString out.Coins with
    | error e =>
      rw [hd] at hm
      exact absurd hm (by simp)
    | ok c0 =>
      rw [hd] at hm
      cases hrest : mapErr (fun o => env.dropletFromString o.Coins) rest with
      | error e =>
        rw [hrest] at hm
        exact absurd hm (by simp)
      | ok cs' =>
        rw [hrest] at hm
        injection hm with h
        subst h
        by_cases hc : bc + c0 < 2 ^ 64
        · by_cases hh : bh + out.CalculatedHours < 2 ^ 64
          · have hrec := ih cs' (bc + c0) (bh + out.CalculatedHours) hc hh hrest
            constructor
            · rintro ⟨h1, h2⟩
              simp only [List.map_cons, List.sum_cons] at h1 h2 ⊢
              simp only [balanceLoop, hd, AddUint64_lt hc, AddUint64_lt hh]
              rw [hrec.1 ⟨by omega, by omega⟩]
              simp [Nat.add_assoc]
            · intro hover
              simp only [List.map_cons, List.sum_cons] at hover ⊢
              simp only [balanceLoop, hd, AddUint64_lt hc, AddUint64_lt hh]
              refine hrec.2 ?_
              rcases hover with h | h
              · left
                omega
              · right
                omega
          · constructor
            · rintro ⟨h1, h2⟩
              exfalso
              simp only [List.map_cons, List.sum_cons] at h2
              omega
            · intro _
              have hge : 2 ^ 64 ≤ bh + out.CalculatedHours := by omega
              simp only [balanceLoop, hd, AddUint64_lt hc, AddUint64_ge hge]
        · constructor
          · rintro ⟨h1, h2⟩
            exfalso
            simp only [List.sum_cons] at h1
            omega
          · intro _
            have hge : 2 ^ 64 ≤ bc + c0 := by omega
            simp only [balanceLoop, hd, AddUint64_ge hge]

/-! Claim theorems. -/

/-- C1: For every `ReadableOutputSet`, `SpendableOutputs` returns
exactly the head outputs whose hash does not appear among the outgoing
outputs' hashes (a filter of the head outputs, hence preserving their
relative order, as the sublist conjunct restates); and if the outgoing
collection is empty, it returns the head collection itself unchanged. -/
theorem SpendableOutputs_spec (os : ReadableOutputSet) :
    os.SpendableOutputs =
      os.HeadOutputs.filter
        (fun o => !((os.OutgoingOutputs.map (fun u => u.Hash)).contains o.Hash)) ∧
    os.SpendableOutputs.Sublist os.HeadOutputs ∧
    (os.OutgoingOutputs = [] → os.SpendableOutputs = os.HeadOutputs) := by
  have hfilter : os.SpendableOutputs =
      os.HeadOutputs.filter
        (fun o => !((os.OutgoingOutputs.map (fun u => u.Hash)).contains o.Hash)) := by
    unfold ReadableOutputSet.SpendableOutputs
    by_cases h : os.OutgoingOutputs.length = 0
    · rw [if_pos h]
      have hnil : os.OutgoingOutputs = [] := List.length_eq_zero.mp h
      rw [hnil]
      simp
    · rw [if_neg h]
  refine ⟨hfilter, ?_, ?_⟩
  · rw [hfilter]
    exact List.filter_sublist _
  · intro h
    unfold ReadableOutputSet.SpendableOutputs
    rw [if_pos (by rw [h]; rfl)]

/-- C1 witness: on a concrete set with no outgoing outputs, the
spendable outputs are the head outputs themselves. -/
theorem SpendableOutputs_spec_witness :
    osW1.OutgoingOutputs = [] ∧ osW1.SpendableOutputs = osW1.HeadOutputs :=
  ⟨rfl, (SpendableOutputs_spec osW1).2.2 rfl⟩

/-- C7: For every `ReadableOutputSet`, `ExpectedOutputs` is the
spendable outputs concatenated with the incoming outputs, in that
order, with no reordering and no deduplication. -/
theorem ExpectedOutputs_spec (os : ReadableOutputSet) :
    os.ExpectedOutputs = os.SpendableOutputs ++ os.IncomingOutputs :=
  rfl

/-- C8: `NewConfirmedTransactionStatus` with height 0 aborts (the Go
panic is embedded as `none`, not an error value); for every positive
height it returns a status that is confirmed, not unconfirmed, with
the given height and block sequence. -/
theorem NewConfirmedTransactionStatus_spec (height blockSeq : Nat) :
    (height = 0 → NewConfirmedTransactionStatus height blockSeq = none) ∧
    (0 < height →
      NewConfirmedTransactionStatus height blockSeq =
        some { Confirmed := true, Unconfirmed := false,
               Height := height, BlockSeq := blockSeq }) := by
  constructor
  · intro h
    unfold NewConfirmedTransactionStatus
    rw [if_pos h]
  · intro h
    unfold NewConfirmedTransactionStatus
    rw [if_neg (by omega)]

/-- C8 witness: height 0 aborts; height 3 with block sequence 7 gives
the confirmed status. -/
theorem NewConfirmedTransactionStatus_spec_witness :
    NewConfirmedTransactionStatus 0 5 = none ∧
    NewConfirmedTransactionStatus 3 7 =
      some { Confirmed := true, Unconfirmed := false, Height := 3, BlockSeq := 7 } :=
  ⟨(NewConfirmedTransactionStatus_spec 0 5).1 rfl,
   (NewConfirmedTransactionStatus_spec 3 7).2 (by omega)⟩

/-- C9: For every transaction whose status is confirmed with a
non-zero block sequence and whose input list is empty,
`NewReadableTransaction` returns an error (and hence no readable
transaction). -/
theorem NewReadableTransaction_emptyIn_error (env : Env) (t : Transaction)
    (hc : t.Status.Confirmed = true) (hb : t.Status.BlockSeq ≠ 0)
    (hin : t.Txn.In = []) :
    NewReadableTransaction env t =
      .error (.other "NewReadableTransaction: Confirmed transaction Status.BlockSeq != 0 but Txn.In is empty") := by
  unfold NewReadableTransaction
  rw [if_pos ⟨hb, hc, hin⟩]

/-- C9 witness: a concrete confirmed transaction with block sequence 2
and no inputs is rejected. -/
theorem NewReadableTransaction_emptyIn_error_witness :
    tC9.Status.Confirmed = true ∧ tC9.Status.BlockSeq ≠ 0 ∧ tC9.Txn.In = [] ∧
    NewReadableTransaction envC2 tC9 =
      .error (.other "NewReadableTransaction: Confirmed transaction Status.BlockSeq != 0 but Txn.In is empty") :=
  ⟨rfl, by decide, rfl,
   NewReadableTransaction_emptyIn_error envC2 tC9 rfl (by decide) rfl⟩

/-- C2 counterexample: a transaction confirmed at block sequence 0
whose content hash is 7 (so not the all-zero hash).  The readable
transaction's reported transaction id (`Hash`, the `txid` field) is
the hex of the real content hash `"7"`, not the hex `"0"` of the
all-zero hash: the claim that the all-zero hash is reported as the
transaction id is false at this input. -/
theorem NewReadableTransaction_genesis_cex :
    NewReadableTransaction envC2 tC2 = .ok rtC2 ∧
    rtC2.Hash ≠ envC2.sha256Hex 0 ∧
    rtC2.Hash = envC2.sha256Hex (envC2.txnHash tC2.Txn) := by
  refine ⟨by rfl, by decide, by rfl⟩

/-- C2 (amended): for a transaction confirmed with block sequence 0,
`NewReadableTransaction` uses the all-zero hash as the owning
transaction id when deriving the output identifiers (`uxid`s), while
the reported `txid` field carries the transaction's real content
hash; for a transaction with block sequence 0 but unconfirmed status,
the real content hash is used both as the reported id and for the
output identifiers. -/
theorem NewReadableTransaction_genesis_amended (env : Env) (t : Transaction) :
    (t.Status.Confirmed = true → t.Status.BlockSeq = 0 →
      ∀ outs, mapErr (fun o => NewReadableTransactionOutput env o 0) t.Txn.Out = .ok outs →
        NewReadableTransaction env t =
          .ok { Timestamp := t.Time
                Length := t.Txn.Length
                «Type» := t.Txn.«Type»
                Hash := env.sha256Hex (env.txnHash t.Txn)
                InnerHash := env.sha256Hex t.Txn.InnerHash
                Sigs := t.Txn.Sigs.map env.sigHex
                In := t.Txn.In.map env.sha256Hex
                Out := outs }) ∧
    (t.Status.Confirmed = false → t.Status.BlockSeq = 0 →
      ∀ outs,
        mapErr (fun o => NewReadableTransactionOutput env o (env.txnHash t.Txn)) t.Txn.Out =
          .ok outs →
        NewReadableTransaction env t =
          .ok { Timestamp := t.Time
                Length := t.Txn.Length
                «Type» := t.Txn.«Type»
                Hash := env.sha256Hex (env.txnHash t.Txn)
                InnerHash := env.sha256Hex t.Txn.InnerHash
                Sigs := t.Txn.Sigs.map env.sigHex
                In := t.Txn.In.map env.sha256Hex
                Out := outs }) := by
  constructor
  · intro hc hb outs hm
    simp [NewReadableTransaction, TxIDHex, hb, hc, hm]
  · intro hc hb outs hm
    simp [NewReadableTransaction, TxIDHex, hb, hc, hm]

/-- C2 witness for the amended claim: the confirmed genesis
transaction `tC2` and the unconfirmed sequence-0 transaction `tC2u`
both report the real content hash `"7"` as the transaction id. -/
theorem NewReadableTransaction_genesis_amended_witness :
    NewReadableTransaction envC2 tC2 = .ok rtC2 ∧
    NewReadableTransaction envC2 tC2u = .ok rtC2 :=
  ⟨(NewReadableTransaction_genesis_amended envC2 tC2).1 rfl rfl [] (by rfl),
   (NewReadableTransaction_genesis_amended envC2 tC2u).2 rfl rfl [] (by rfl)⟩

/-- C3: when every per-output conversion succeeds (producing the list
`l`), `NewReadableOutputs` returns `l` sorted by creation time
descending with ties broken by ascending hash; the result is a
permutation of the conversions, sorting is deterministic (sorting the
sorted result changes nothing), and the comparator never relates two
outputs with distinct hashes as equal. -/
theorem NewReadableOutputs_sorted_spec (env : Env) (headTime : Nat) (uxs : List UxOut)
    (l : ReadableOutputs) (hm : mapErr (NewReadableOutput env headTime) uxs = .ok l) :
    NewReadableOutputs env headTime uxs = .ok (sortLe outLE l) ∧
    (sortLe outLE l).Perm l ∧
    (sortLe outLE l).Pairwise
      (fun a b => b.Time < a.Time ∨ (b.Time = a.Time ∧ strLe a.Hash b.Hash = true)) ∧
    sortLe outLE (sortLe outLE l) = sortLe outLE l ∧
    (∀ a b : ReadableOutput, a.Hash ≠ b.Hash →
      (outLess a b = true ∨ outLess b a = true) ∧
      ¬(outLess a b = true ∧ outLess b a = true)) := by
  refine ⟨?_, sortLe_perm _ _, ?_, ?_, ?_⟩
  · unfold NewReadableOutputs
    rw [hm]
  · exact (pairwise_sortLe outLE_total outLE_trans l).imp fun h => (outLE_iff _ _).mp h
  · exact sortLe_of_pairwise (pairwise_sortLe outLE_total outLE_trans l)
  · intro a b hne
    constructor
    · by_cases ht : a.Time = b.Time
      · rw [outLess_iff, outLess_iff]
        rcases strLt_total_ne a.Hash b.Hash hne with h | h
        · exact Or.inl (Or.inl ⟨ht, h⟩)
        · exact Or.inr (Or.inl ⟨ht.symm, h⟩)
      · rw [outLess_iff, outLess_iff]
        have ht' : ¬b.Time = a.Time := fun hh => ht hh.symm
        rcases Nat.lt_trichotomy a.Time b.Time with h | h | h
        · exact Or.inr (Or.inr ⟨ht', h⟩)
        · exact absurd h ht
        · exact Or.inl (Or.inr ⟨ht, h⟩)
    · rintro ⟨h1, h2⟩
      rw [outLess_iff] at h1 h2
      rcases h1 with ⟨ht1, hh1⟩ | ⟨ht1, hh1⟩ <;> rcases h2 with ⟨ht2, hh2⟩ | ⟨ht2, hh2⟩
      · have hasym := charsLt_asymm a.Hash.data b.Hash.data hh1
        simp only [strLt] at hh2
        rw [hasym] at hh2
        exact absurd hh2 (by simp)
      · exact absurd ht1.symm ht2
      · exact absurd ht2.symm ht1
      · omega

/-- C3 witness: two outputs sharing a creation time convert
successfully and are returned in ascending hash order. -/
theorem NewReadableOutputs_sorted_spec_witness :
    mapErr (NewReadableOutput envC3 0) [uxB, uxA] = .ok [roB, roA] ∧
    NewReadableOutputs envC3 0 [uxB, uxA] = .ok (sortLe outLE [roB, roA]) ∧
    sortLe outLE [roB, roA] = [roA, roB] :=
  ⟨by rfl,
   (NewReadableOutputs_sorted_spec envC3 0 [uxB, uxA] [roB, roA] (by rfl)).1,
   by rfl⟩

/-- C4: for every unspent output whose conversion succeeds, converting
the singleton readable result back with `ToUxArray` succeeds and
returns the original output (same creation time, block sequence,
source-transaction hash, address, coin amount and declared hours —
i.e. every field of `UxOut`).  The decode hypotheses instantiate the
codec round-trip contract stated by the specification. -/
theorem NewReadableOutput_roundTrip (env : Env) (headTime : Nat) (ux : UxOut)
    (ro : ReadableOutput) (h : NewReadableOutput env headTime ux = .ok ro)
    (hc : env.dropletFromString ro.Coins = .ok ux.Body.Coins)
    (ha : env.decodeBase58Address ro.Address = .ok ux.Body.Address)
    (hs : env.sha256FromHex ro.SourceTransaction = .ok ux.Body.SrcTransaction) :
    ReadableOutputs.ToUxArray [ro] env = .ok [ux] := by
  unfold NewReadableOutput at h
  cases hds : env.dropletToString ux.Body.Coins with
  | error e =>
    rw [hds] at h
    exact absurd h (by simp)
  | ok s =>
    rw [hds] at h
    cases hch : env.coinHours ux headTime with
    | ok v =>
      rw [hch] at h
      obtain rfl := Except.ok.inj h
      simp [ReadableOutputs.ToUxArray, mapErr, hc, ha, hs]
    | error e =>
      cases e with
      | addEarnedCoinHoursAdditionOverflow =>
        rw [hch] at h
        obtain rfl := Except.ok.inj h
        simp [ReadableOutputs.ToUxArray, mapErr, hc, ha, hs]
      | other msg =>
        rw [hch] at h
        exact absurd h (by simp)

/-- C4 witness: a concrete output converts to readable form and back
to itself. -/
theorem NewReadableOutput_roundTrip_witness :
    NewReadableOutput envC4 50 uxC4 = .ok roC4 ∧
    envC4.dropletFromString roC4.Coins = .ok uxC4.Body.Coins ∧
    ReadableOutputs.ToUxArray [roC4] envC4 = .ok [uxC4] :=
  ⟨by rfl, by rfl,
   NewReadableOutput_roundTrip envC4 50 uxC4 roC4 (by rfl) (by rfl) (by rfl) (by rfl)⟩

/-- C5: when every coins string of the collection decodes (to the list
`cs`), `Balance` returns the exact sums of the decoded coins and of
the calculated-hours fields if both fit in 64 bits, and the overflow
error — never a wrapped-around total — as soon as either running sum
would exceed 64 bits. -/
theorem Balance_spec (env : Env) (ros : ReadableOutputs) (cs : List Nat)
    (hdec : mapErr (fun o => env.dropletFromString o.Coins) ros = .ok cs) :
    (cs.sum < 2 ^ 64 ∧ (ros.map (fun o => o.CalculatedHours)).sum < 2 ^ 64 →
      ros.Balance env =
        .ok { Coins := cs.sum, Hours := (ros.map (fun o => o.CalculatedHours)).sum }) ∧
    (2 ^ 64 ≤ cs.sum ∨ 2 ^ 64 ≤ (ros.map (fun o => o.CalculatedHours)).sum →
      ros.Balance env = .error (.other "uint64 addition overflow")) := by
  have h := balanceLoop_spec env ros cs 0 0 (by norm_num) (by norm_num) hdec
  simp only [Nat.zero_add] at h
  exact h

/-- C5 witness: a two-output collection sums exactly; a collection
whose calculated hours reach `2 ^ 64` yields the overflow error. -/
theorem Balance_spec_witness :
    mapErr (fun o => envC5.dropletFromString o.Coins) rosW5a = .ok [1, 2] ∧
    rosW5a.Balance envC5 = .ok { Coins := 3, Hours := 5 } ∧
    rosW5b.Balance envC5 = .error (.other "uint64 addition overflow") :=
  ⟨by rfl,
   (Balance_spec envC5 rosW5a [1, 2] (by rfl)).1 ⟨by norm_num, by decide⟩,
   (Balance_spec envC5 rosW5b [1] (by rfl)).2 (Or.inr (by decide))⟩

/-- C6: in `NewReadableOutput`, a coin-hours accrual failure equal to
the known earned-coin-hours addition overflow is tolerated — the
conversion succeeds with calculated hours 0; any other accrual
failure, and any coin-amount encoding failure, makes the conversion
return that error. -/
theorem NewReadableOutput_overflow_policy (env : Env) (headTime : Nat) (ux : UxOut) :
    (∀ s, env.dropletToString ux.Body.Coins = .ok s →
      (env.coinHours ux headTime = .error .addEarnedCoinHoursAdditionOverflow →
        NewReadableOutput env headTime ux =
          .ok { Hash := env.sha256Hex (env.uxHash ux)
                Time := ux.Head.Time
                BkSeq := ux.Head.BkSeq
                SourceTransaction := env.sha256Hex ux.Body.SrcTransaction
                Address := env.addrString ux.Body.Address
                Coins := s
                Hours := ux.Body.Hours
                CalculatedHours := 0 }) ∧
      (∀ msg, env.coinHours ux headTime = .error (.other msg) →
        NewReadableOutput env headTime ux = .error (.other msg))) ∧
    (∀ e, env.dropletToString ux.Body.Coins = .error e →
      NewReadableOutput env headTime ux = .error e) := by
  refine ⟨fun s hs => ⟨fun hch => ?_, fun msg hch => ?_⟩, fun e he => ?_⟩
  · simp [NewReadableOutput, hs, hch]
  · simp [NewReadableOutput, hs, hch]
  · simp [NewReadableOutput, he]

/-- C6 witness: the known overflow yields calculated hours 0; an
unrelated accrual error and a coins-encoding error propagate. -/
theorem NewReadableOutput_overflow_policy_witness :
    NewReadableOutput envC6a 0 uxC6 =
      .ok { Hash := "4", Time := 5, BkSeq := 1, SourceTransaction := "2",
            Address := "3", Coins := "4", Hours := 6, CalculatedHours := 0 } ∧
    NewReadableOutput envC6b 0 uxC6 = .error (.other "boom") ∧
    NewReadableOutput envC6c 0 uxC6 = .error (.other "badcoins") :=
  ⟨((NewReadableOutput_overflow_policy envC6a 0 uxC6).1 "4" (by rfl)).1 (by rfl),
   ((NewReadableOutput_overflow_policy envC6b 0 uxC6).1 "4" (by rfl)).2 "boom" (by rfl),
   (NewReadableOutput_overflow_policy envC6c 0 uxC6).2 (.other "badcoins") (by rfl)⟩

/-- C10: `NewReadableTransactionInput` never fails because of the
coin-hours accrual: whenever the coins encoding succeeds, any accrual
failure — not only the known overflow — is replaced by calculated
hours 0 and the conversion succeeds; by contrast, the output
conversion path propagates a non-overflow accrual failure as an
error. -/
theorem NewReadableTransactionInput_tolerant (env : Env) (ux : UxOut)
    (calculateHoursTime : Nat) :
    ∀ s, env.dropletToString ux.Body.Coins = .ok s →
      (∀ e, env.coinHours ux calculateHoursTime = .error e →
        NewReadableTransactionInput env ux calculateHoursTime =
          .ok { Hash := env.sha256Hex (env.uxHash ux)
                Address := env.addrString ux.Body.Address
                Coins := s
                Hours := ux.Body.Hours
                CalculatedHours := 0 }) ∧
      (∀ msg, env.coinHours ux calculateHoursTime = .error (.other msg) →
        NewReadableOutput env calculateHoursTime ux = .error (.other msg)) := by
  intro s hs
  constructor
  · intro e he
    simp [NewReadableTransactionInput, hs, he]
  · intro msg hmsg
    simp [NewReadableOutput, hs, hmsg]

/-- C10 witness: under an accrual that fails with an unrelated error,
the input conversion succeeds with calculated hours 0 while the
output conversion fails. -/
theorem NewReadableTransactionInput_tolerant_witness :
    NewReadableTransactionInput envC6b uxC6 0 =
      .ok { Hash := "4", Address := "3", Coins := "4", Hours := 6,
            CalculatedHours := 0 } ∧
    NewReadableOutput envC6b 0 uxC6 = .error (.other "boom") :=
  ⟨(NewReadableTransactionInput_tolerant envC6b uxC6 0 "4" (by rfl)).1
      (.other "boom") (by rfl),
   (NewReadableTransactionInput_tolerant envC6b uxC6 0 "4" (by rfl)).2 "boom" (by rfl)⟩
